import Mathlib

/-!
# Verification of the supermarket-scraper core

Shallow embedding of the data enrichment / normalization pipeline and the
hybrid search engine of the scraper repository, together with proofs of the
behavioural properties stated in its specification.

The embedding follows the Python sources:

* `services/scraper/modern_scraper/utils/price_parser.py` (`PriceParser`),
* `services/scraper/modern_scraper/pipelines/validation.py` (`ValidationPipeline`),
* `services/scraper/modern_scraper/pipelines/database.py` (`DatabasePipeline`),
* `shared/database/models/category.py` (`Category`),
* `shared/database/repositories/product.py` (`ProductRepository`),
* `shared/database/services/product_service.py` (`ProductService`).

Python `Decimal` values are modelled as `ℚ`, timestamps as `ℕ`, and the
external collaborators (PostgreSQL full-text ranking, pgvector cosine
distance, the OpenAI embedding client) as explicit function parameters, as the
specification treats them as black boxes.
-/

namespace Scraper

/-! ## Character-level helpers

The regular expressions of `PriceParser` are compiled by hand into
deterministic matching functions over `List Char`.  Whitespace and digit
classes are the ASCII ones (all strings the parser is specified on are
ASCII-digit based; the German letters appearing in phrase lists are already
lower case, so ASCII `Char.toLower` agrees with Python `str.lower` on them).
-/

/-- The whitespace class used by `\s` and `str.strip`. -/
def isWs (c : Char) : Bool :=
  c = ' ' || c = '\t' || c = '\n' || c = '\r' || c = '\x0b' || c = '\x0c'

/-- Python `str.strip()` on a character list. -/
def trimL (l : List Char) : List Char :=
  ((l.dropWhile isWs).reverse.dropWhile isWs).reverse

/-- Python `str.strip()`. -/
def trimS (s : String) : String :=
  String.mk (trimL s.data)

/-- Python `str.lower()` on a character list (ASCII case folding). -/
def lowerL (l : List Char) : List Char :=
  l.map Char.toLower

/-- Does `hay` start with `pat`?  (Helper for substring containment.) -/
def startsWithL : List Char → List Char → Bool
  | [], _ => true
  | _ :: _, [] => false
  | p :: ps, h :: hs => p = h && startsWithL ps hs

/-- Python `pat in hay` substring containment. -/
def containsL (pat : List Char) : List Char → Bool
  | [] => startsWithL pat []
  | c :: t => startsWithL pat (c :: t) || containsL pat t

/-- Numeric value of an ASCII digit. -/
def digitVal (c : Char) : Nat := c.toNat - '0'.toNat

/-- Value of a run of ASCII digits (most significant first). -/
def digitsToNat (l : List Char) : Nat :=
  l.foldl (fun a c => 10 * a + digitVal c) 0

/-! ## PriceParser

`PriceParser.PRICE_PATTERNS` (price_parser.py, lines 19-39) and the three
class methods `parse_main_price`, `parse_base_price`, `detect_availability`.
-/

/-- `'main_price'` subpattern `\d+[,.]\d{2}` at the current position:
maximal digit run, a comma or dot, then exactly two digits.  Returns the
captured group together with the remaining input.  (A shorter-than-maximal
digit run can never satisfy the pattern here, because the character after it
would again be a digit, not a separator, so the greedy match is exact.) -/
def parsePriceNum (l : List Char) : Option (List Char × List Char) :=
  let ds := l.takeWhile Char.isDigit
  let r := l.dropWhile Char.isDigit
  if ds.isEmpty then none
  else
    match r with
    | sep :: c1 :: c2 :: t =>
      if (sep = ',' || sep = '.') && c1.isDigit && c2.isDigit then
        some (ds ++ [sep, c1, c2], t)
      else none
    | _ => none

/-- The optional prefix `(?:€\s*)?`: when the euro sign is not present the
alternative without it needs a digit at the same position, so consuming the
euro sign (and following whitespace) when it is there is exact. -/
def dropEuroWs (l : List Char) : List Char :=
  match l with
  | '€' :: t => t.dropWhile isWs
  | _ => l

/-- One anchored attempt of the `'main_price'` regex
`(?:€\s*)?(\d+[,.]\d{2})(?:\s*€|EUR)?`; the trailing group is optional and
does not influence the captured group. -/
def matchMainAt (l : List Char) : Option (List Char) :=
  (parsePriceNum (dropEuroWs l)).map Prod.fst

/-- `re.search` for `'main_price'`: leftmost starting position wins. -/
def searchMain : List Char → Option (List Char)
  | [] => none
  | c :: t =>
    match matchMainAt (c :: t) with
    | some g => some g
    | none => searchMain t

/-- Python `str.replace(',', '.')`, applied to matched groups before
`Decimal` construction. -/
def commaToDot (l : List Char) : List Char :=
  l.map (fun c => if c = ',' then '.' else c)

/-- `Decimal(text)` on the digit strings produced by the parser: an optional
integer digit run, an optional dot followed by a fraction digit run, at least
one digit overall.  (Signs, exponents and surrounding whitespace never occur
in the matched groups.)  `none` models a raised `InvalidOperation`. -/
def parseDecimal (l : List Char) : Option ℚ :=
  let ip := l.takeWhile Char.isDigit
  let r := l.dropWhile Char.isDigit
  match r with
  | [] => if ip.isEmpty then none else some (digitsToNat ip : ℚ)
  | '.' :: fp =>
    if fp.all Char.isDigit && !(ip.isEmpty && fp.isEmpty) then
      some ((digitsToNat ip : ℚ) + (digitsToNat fp : ℚ) / (10 : ℚ) ^ fp.length)
    else none
  | _ => none

/-- `PriceParser.parse_main_price` (price_parser.py, lines 41-64): empty
input is falsy and yields `None`; otherwise search the pattern, replace the
comma and build a `Decimal`, returning `None` on failure. -/
def parseMainPrice (s : String) : Option ℚ :=
  if s = "" then none
  else
    match searchMain s.data with
    | some g => parseDecimal (commaToDot g)
    | none => none

/-- The optional `(?:\()?` opening parenthesis of `'base_price'`. -/
def dropParen (l : List Char) : List Char :=
  match l with
  | '(' :: t => t
  | _ => l

/-- The optional `(?:per\s+)?` of `'base_price'` (case-insensitive `per`
followed by at least one whitespace character). -/
def matchPer (l : List Char) : List Char :=
  match l with
  | a :: b :: c :: d :: t =>
    if a.toLower = 'p' && b.toLower = 'e' && c.toLower = 'r' && isWs d then
      t.dropWhile isWs
    else a :: b :: c :: d :: t
  | other => other

/-- The `(?:\s*€)?\s*[/]?\s*(?:per\s+)?` stretch of `'base_price'` between
the captured price and the captured quantity.  Each optional piece is exact:
skipping it when it is present leaves a character (`€`, `/`, `p`) that no
later piece of the pattern can consume before the required digit. -/
def afterPriceSkip (r : List Char) : List Char :=
  let w := r.dropWhile isWs
  let r3 := match w with
            | '€' :: t => t
            | _ => r
  let r4 := r3.dropWhile isWs
  let r5 := match r4 with
            | '/' :: t => t
            | _ => r4
  matchPer (r5.dropWhile isWs)

/-- `'base_price'` subpattern `(\d+(?:[.,]\d+)?)`: maximal digit run,
optionally a separator followed by a further maximal digit run. -/
def parseQuantNum (l : List Char) : Option (List Char × List Char) :=
  let ds := l.takeWhile Char.isDigit
  let r := l.dropWhile Char.isDigit
  if ds.isEmpty then none
  else
    match r with
    | sep :: d :: t =>
      if (sep = '.' || sep = ',') && d.isDigit then
        some (ds ++ sep :: (d :: t).takeWhile Char.isDigit,
              (d :: t).dropWhile Char.isDigit)
      else some (ds, sep :: d :: t)
    | other => some (ds, other)

/-- One anchored attempt of the full `'base_price'` regex
`(?:\()?(?:€\s*)?(\d+[,.]\d{2})(?:\s*€)?\s*[/]?\s*(?:per\s+)?`
`(\d+(?:[.,]\d+)?)\s*([a-zA-Z]+)(?:\))?`, returning the three captured
groups.  `Char.isAlpha` is exactly the ASCII class `[a-zA-Z]`. -/
def matchBaseAt (l : List Char) : Option (List Char × List Char × List Char) :=
  match parsePriceNum (dropEuroWs (dropParen l)) with
  | none => none
  | some (g1, r2) =>
    match parseQuantNum (afterPriceSkip r2) with
    | none => none
    | some (g2, r8) =>
      let r9 := r8.dropWhile isWs
      let al := r9.takeWhile Char.isAlpha
      if al.isEmpty then none else some (g1, g2, al)

/-- `re.search` for `'base_price'`. -/
def searchBase : List Char → Option (List Char × List Char × List Char)
  | [] => none
  | c :: t =>
    match matchBaseAt (c :: t) with
    | some g => some g
    | none => searchBase t

/-- The `'unit_normalize'` synonym table (price_parser.py, lines 30-38). -/
def unitNormalizeTable : List (String × String) :=
  [("g", "g"), ("gr", "g"), ("gram", "g"), ("gramos", "g"),
   ("kg", "kg"), ("kilo", "kg"), ("kilogram", "kg"), ("kilos", "kg"),
   ("ml", "ml"), ("milliliter", "ml"), ("millilitro", "ml"),
   ("l", "L"), ("liter", "L"), ("litro", "L"), ("litre", "L"),
   ("st", "piece"), ("stück", "piece"), ("piece", "piece"), ("pcs", "piece"),
   ("m", "m"), ("meter", "m"), ("metre", "m"),
   ("cm", "cm"), ("centimeter", "cm"), ("centimetre", "cm")]

/-- `dict.get` on the synonym table. -/
def lookupUnit (u : String) : Option String :=
  (unitNormalizeTable.find? (fun kv => kv.1 = u)).map (·.2)

/-- The unit normalization step of `parse_base_price` (line 98-99):
`match.group(3).lower().strip()` followed by a table lookup with the lowered
string itself as the fallback. -/
def normalizeUnit (s : String) : String :=
  let u := String.mk (trimL (lowerL s.data))
  (lookupUnit u).getD u

/-- Result dictionary of `parse_base_price`; a `none` field models the
Python value `None`. -/
structure BasePriceResult where
  amount : Option ℚ
  unit : Option String
  quantity : Option ℚ
deriving DecidableEq, Repr

/-- `PriceParser.parse_base_price` (price_parser.py, lines 66-104).  The
three assignments run in order inside one `try`; an exception while parsing
the quantity would leave the already-assigned amount in the result, which the
sequential `match`es reproduce. -/
def parseBasePrice (s : String) : BasePriceResult :=
  if s = "" then ⟨none, none, none⟩
  else
    match searchBase s.data with
    | none => ⟨none, none, none⟩
    | some (g1, g2, g3) =>
      match parseDecimal (commaToDot g1) with
      | none => ⟨none, none, none⟩
      | some a =>
        match parseDecimal (commaToDot g2) with
        | none => ⟨some a, none, none⟩
        | some q => ⟨some a, some (normalizeUnit (String.mk g3)), some q⟩

/-- The positive phrase list of `detect_availability` (lines 124-127). -/
def inStockPhrases : List String :=
  ["verfügbar", "available", "auf lager", "in stock",
   "lieferbar", "sofort verfügbar", "vorrätig"]

/-- The negative phrase list of `detect_availability` (lines 130-134). -/
def outOfStockPhrases : List String :=
  ["nicht verfügbar", "out of stock", "ausverkauft",
   "nicht lieferbar", "temporär nicht verfügbar",
   "nicht vorrätig", "sold out"]

/-- `PriceParser.detect_availability` (price_parser.py, lines 106-144).  The
two `for` loops return on the first phrase contained in the lowered text, so
the result only depends on whether any phrase of each list matches. -/
def detectAvailability (s : String) : String × Option String :=
  if s = "" then ("unknown", none)
  else
    let low := lowerL s.data
    if inStockPhrases.any (fun p => containsL p.data low) then
      ("in_stock", some (trimS s))
    else if outOfStockPhrases.any (fun p => containsL p.data low) then
      ("out_of_stock", some (trimS s))
    else
      ("unknown", if trimS s = "" then none else some (trimS s))

/-- Digit-run detector used to state when the `'main_price'` pattern can
match at all: the pattern matches somewhere in the text iff some position
holds a digit directly followed by a comma or dot and two further digits
(the match can always start at the last digit of the run). -/
def fourShape (l : List Char) : Bool :=
  match l with
  | a :: b :: c :: d :: _ =>
    a.isDigit && (b = ',' || b = '.') && c.isDigit && d.isDigit
  | _ => false

/-- Some suffix of the text satisfies `fourShape`. -/
def hasPriceShape : List Char → Bool
  | [] => false
  | c :: t => fourShape (c :: t) || hasPriceShape t

/-! ## ValidationPipeline

`ValidationPipeline._validate_required_fields` (validation.py, lines 84-99).
Only the four checked fields are modelled; a `none` models a missing key or
the value `None`, and a string field is rejected when it is empty or
whitespace-only (`not value or not value.strip()`).
-/

/-- An incoming scraped item, restricted to the required fields. -/
structure RawRecord where
  name : Option String
  productUrl : Option String
  storeName : Option String
  scrapedAt : Option String
deriving DecidableEq, Repr

/-- `not value or (isinstance(value, str) and not value.strip())`. -/
def fieldBlank (v : Option String) : Bool :=
  match v with
  | none => true
  | some s => s = "" || trimS s = ""

/-- `_validate_required_fields`: the dictionary of required fields is
iterated in insertion order `name`, `product_url`, `store_name`,
`scraped_at`; the first blank field raises `DropItem` (returned here as
`some fieldName`), otherwise the record passes on to the next stage. -/
def validateRequiredFields (r : RawRecord) : Option String :=
  if fieldBlank r.name then some "name"
  else if fieldBlank r.productUrl then some "product_url"
  else if fieldBlank r.storeName then some "store_name"
  else if fieldBlank r.scrapedAt then some "scraped_at"
  else none

/-! ## DatabasePipeline: product upsert

`DatabasePipeline._prepare_product_data` (database.py, lines 352-397) and
`DatabasePipeline._update_existing_product` (lines 399-433).  The model keeps
the fields relevant to the price-change logic plus representatives of the
other scalar fields; every omitted field follows the same
present-key-overwrites rule of `BaseModel.update_from_dict`.  `Decimal`
prices are `ℚ`, timestamps are `ℕ`.
-/

/-- The already-enriched adapter values read by `_prepare_product_data`. -/
structure AdapterItem where
  name : Option String
  priceAmount : Option ℚ
  priceCurrency : Option String
  description : Option String
  scrapedAt : Option Nat
  scrapeCount : Option Nat
deriving DecidableEq, Repr

/-- The dictionary built by `_prepare_product_data` after its final
`None`-stripping comprehension: a `none` field is an absent key. -/
structure ProductData where
  name : Option String
  priceAmount : Option ℚ
  priceCurrency : Option String
  description : Option String
  scrapedAt : Option Nat
  scrapeCount : Option Nat
  lastPriceUpdate : Option Nat
deriving DecidableEq, Repr

/-- A persisted product row (the columns the update logic touches). -/
structure StoredProduct where
  name : String
  priceAmount : Option ℚ
  priceCurrency : String
  description : Option String
  scrapedAt : Nat
  scrapeCount : Nat
  lastPriceUpdate : Option Nat
deriving DecidableEq, Repr

/-- `_prepare_product_data`: note lines 392-394 put `last_price_update = now`
into the dictionary whenever the scraped price is not `None`; the
`None`-stripping makes absent exactly the `none` fields. -/
def prepareProductData (ad : AdapterItem) (now : Nat) : ProductData :=
  { name := ad.name
    priceAmount := ad.priceAmount
    priceCurrency := some (ad.priceCurrency.getD "EUR")
    description := ad.description
    scrapedAt := some (ad.scrapedAt.getD now)
    scrapeCount := some (ad.scrapeCount.getD 1)
    lastPriceUpdate := if ad.priceAmount.isSome then some now else none }

/-- `BaseModel.update_from_dict` as invoked by `BaseRepository.update`:
every key present in the dictionary overwrites the row attribute (`id` and
`created_at` are excluded there and not modelled). -/
def applyUpdate (p : StoredProduct) (d : ProductData) : StoredProduct :=
  { name := d.name.getD p.name
    priceAmount := match d.priceAmount with
                   | some v => some v
                   | none => p.priceAmount
    priceCurrency := d.priceCurrency.getD p.priceCurrency
    description := match d.description with
                   | some v => some v
                   | none => p.description
    scrapedAt := d.scrapedAt.getD p.scrapedAt
    scrapeCount := d.scrapeCount.getD p.scrapeCount
    lastPriceUpdate := match d.lastPriceUpdate with
                       | some v => some v
                       | none => p.lastPriceUpdate }

/-- `_update_existing_product`: detect a price change (new price differs and
is not `None`), in that case also stamp `last_price_update` with a fresh
`now`; always set `scrape_count` to the stored count plus one; then apply the
dictionary to the row.  Returns the updated row and the `price_changed` flag
written back onto the adapter. -/
def updateExistingProduct (p : StoredProduct) (d : ProductData) (now2 : Nat) :
    StoredProduct × Bool :=
  let priceChanged := decide (p.priceAmount ≠ d.priceAmount) && d.priceAmount.isSome
  let d1 := if priceChanged then { d with lastPriceUpdate := some now2 } else d
  let d2 := { d1 with scrapeCount := some (p.scrapeCount + 1) }
  (applyUpdate p d2, priceChanged)

/-- The update branch of `_process_product` for an already-stored URL:
`_prepare_product_data` followed by `_update_existing_product` (`now1` and
`now2` are the two successive `datetime.utcnow()` calls). -/
def processExistingProduct (p : StoredProduct) (ad : AdapterItem) (now1 now2 : Nat) :
    StoredProduct × Bool :=
  updateExistingProduct p (prepareProductData ad now1) now2

/-! ## DatabasePipeline: category hierarchy

`Category` (category.py) with its two table constraints, and
`DatabasePipeline._get_or_create_category_hierarchy` (database.py,
lines 182-263) on the `category_path` branch.
-/

/-- A row of the `categories` table (the columns the pipeline reads or
writes; `level` is stored as a string in the model but only its numeric
value matters here). -/
structure CategoryRow where
  id : Nat
  name : String
  slug : String
  parentId : Option Nat
  level : Nat
  path : String
deriving DecidableEq, Repr

/-- The `categories` table with its id sequence. -/
structure CatDB where
  rows : List CategoryRow
  nextId : Nat
deriving DecidableEq, Repr

/-- `BaseRepository.create` against the `categories` table.  The table
declares `UniqueConstraint('name', 'parent_id')` and
`UniqueConstraint('slug')` (category.py, lines 37-40); violating either
raises `IntegrityError`, modelled as `none` (the failed insert is rolled
back, earlier commits stand). -/
def catCreate (db : CatDB) (name slug : String) (level : Nat)
    (parentId : Option Nat) (path : String) : Option (CatDB × CategoryRow) :=
  if db.rows.any (fun r => decide (r.name = name) && decide (r.parentId = parentId)) then
    none
  else if db.rows.any (fun r => decide (r.slug = slug)) then
    none
  else
    let row : CategoryRow := ⟨db.nextId, name, slug, parentId, level, path⟩
    some ({ rows := db.rows ++ [row], nextId := db.nextId + 1 }, row)

/-- Python `name.lower().replace(' ', '-').replace('/', '-')` used by the
pipeline to derive a category slug from a path entry. -/
def slugify (s : String) : String :=
  String.mk (s.data.map (fun c =>
    let c2 := c.toLower
    if c2 = ' ' || c2 = '/' then '-' else c2))

/-- The fallback construction of `category_hierarchy` from `category_path`
(database.py, lines 193-201): `(name.strip(), slug, level)` per entry. -/
def buildHierarchy (path : List String) : List (String × String × Nat) :=
  path.enum.map (fun p => (trimS p.2, slugify p.2, p.1))

/-- Pipeline-side state: the table plus the in-memory id cache, keyed by
`(slug, level, parent id)` (the f-string key of line 212 is injective in
these three components). -/
structure CatState where
  db : CatDB
  cache : List ((String × Nat × Option Nat) × Nat)
deriving DecidableEq, Repr

/-- The per-level loop of `_get_or_create_category_hierarchy`: cache lookup
(falling through when the cached id is gone), then a query by
`(slug, parent_id)`, then a create with the computed `path` and `level`.  An
`IntegrityError` from the create is caught by the surrounding
`except Exception` which returns `None` while keeping all already-committed
sub-steps. -/
def walkHierarchy : CatState → Option CategoryRow → List (String × String × Nat) →
    CatState × Option CategoryRow
  | st, parent, [] => (st, parent)
  | st, parent, (nm, sl, lv) :: rest =>
    let pid := parent.map (·.id)
    let key := (sl, lv, pid)
    let cached : Option CategoryRow :=
      match (st.cache.find? (fun kv => decide (kv.1 = key))).map (·.2) with
      | some cid => st.db.rows.find? (fun r => decide (r.id = cid))
      | none => none
    match cached with
    | some row => walkHierarchy st (some row) rest
    | none =>
      match st.db.rows.find? (fun r => decide (r.slug = sl) && decide (r.parentId = pid)) with
      | some row =>
        walkHierarchy { st with cache := st.cache ++ [(key, row.id)] } (some row) rest
      | none =>
        let newPath := match parent with
          | some p => (if p.path = "" then p.name else p.path) ++ "/" ++ nm
          | none => nm
        match catCreate st.db nm sl lv pid newPath with
        | none => (st, none)
        | some (db2, row) =>
          walkHierarchy { db := db2, cache := st.cache ++ [(key, row.id)] } (some row) rest

/-- `_get_or_create_category_hierarchy` on a raw `category_path` (no
spider-supplied hierarchy): empty path returns `None`, otherwise the levels
are walked top-down and the leaf is returned. -/
def getOrCreateCategoryHierarchy (st : CatState) (categoryPath : List String) :
    CatState × Option CategoryRow :=
  if categoryPath = [] then (st, none)
  else walkHierarchy st none (buildHierarchy categoryPath)

/-! ## ProductRepository / ProductService: search

`search_by_text`, `search_by_embedding`, `hybrid_search`,
`get_similar_products` (product.py) and `ProductService.search_products`
(product_service.py).  PostgreSQL full-text ranking and pgvector cosine
distance are external collaborators, passed in as functions `rank`
(`none` = the `@@` filter rejects the row) and `cosDist`; `ORDER BY` with its
arbitrary-but-fixed tie order is modelled by a stable sort over the table
order.  Python floats are modelled as `ℚ`.
-/

/-- A row of the `products` table (the columns search touches). -/
structure SProduct where
  id : Nat
  storeId : Nat
  categoryId : Option Nat
  searchText : Option String
  embedding : Option (List ℚ)
deriving DecidableEq, Repr

/-- Insert before the first element with a strictly smaller key (stable
descending insertion). -/
def insertDescBy {α : Type} (key : α → ℚ) (x : α) : List α → List α
  | [] => [x]
  | y :: t => if key y ≤ key x then x :: y :: t else y :: insertDescBy key x t

/-- Stable sort, descending by `key` (equal keys keep table order, like an
SQL `ORDER BY ... DESC` with deterministic ties and like Python `sorted`
with `reverse=True`). -/
def sortDescBy {α : Type} (key : α → ℚ) : List α → List α
  | [] => []
  | x :: t => insertDescBy key x (sortDescBy key t)

/-- Insert before the first element with a strictly larger key (stable
ascending insertion). -/
def insertAscBy {α : Type} (key : α → ℚ) (x : α) : List α → List α
  | [] => [x]
  | y :: t => if key x ≤ key y then x :: y :: t else y :: insertAscBy key x t

/-- Stable sort, ascending by `key`. -/
def sortAscBy {α : Type} (key : α → ℚ) : List α → List α
  | [] => []
  | x :: t => insertAscBy key x (sortAscBy key t)

/-- Store filter guard (`if store_id:` is Python truthiness, so the filter
is skipped for `None` and for `0`). -/
def storeMatches (storeId : Option Nat) (p : SProduct) : Bool :=
  match storeId with
  | none => true
  | some sid => sid == 0 || p.storeId == sid

/-- Category filter guard: applied only when the parameter is truthy. -/
def categoryMatches (categoryId : Option Nat) (p : SProduct) : Bool :=
  match categoryId with
  | none => true
  | some cid => cid == 0 || p.categoryId == some cid

/-- `ProductRepository.search_by_text` (product.py, lines 24-57): filter by
the full-text match, order by relevance descending, truncate to `limit`. -/
def searchByText (rank : String → Option String → Option ℚ) (db : List SProduct)
    (q : String) (storeId categoryId : Option Nat) (limit : Nat) : List SProduct :=
  let cands := db.filter (fun p =>
    (rank q p.searchText).isSome && storeMatches storeId p && categoryMatches categoryId p)
  (sortDescBy (fun p => (rank q p.searchText).getD 0) cands).take limit

/-- The `similarity_threshold` default of `search_by_embedding`. -/
def defaultSimilarityThreshold : ℚ := 8 / 10

/-- `ProductRepository.search_by_embedding` (product.py, lines 59-94):
keep rows with a stored embedding whose cosine distance to the query is
strictly below `1 - threshold`, order by distance ascending, truncate, and
return each row with its similarity `1 - distance`. -/
def searchByEmbedding (cosDist : List ℚ → List ℚ → ℚ) (db : List SProduct)
    (emb : List ℚ) (storeId categoryId : Option Nat) (threshold : ℚ) (limit : Nat) :
    List (SProduct × ℚ) :=
  let cands := db.filter (fun p =>
    p.embedding.isSome
      && decide (cosDist emb (p.embedding.getD []) < 1 - threshold)
      && storeMatches storeId p && categoryMatches categoryId p)
  ((sortAscBy (fun p => cosDist emb (p.embedding.getD [])) cands).take limit).map
    (fun p => (p, 1 - cosDist emb (p.embedding.getD [])))

/-- One entry of the `results` dict of `hybrid_search` (keyed by product id;
the dict preserves first-insertion order). -/
structure ScoreEntry where
  pid : Nat
  textScore : ℚ
  vectorScore : ℚ
  totalScore : ℚ
deriving DecidableEq, Repr

/-- The text-stage scoring loop of `hybrid_search` (lines 122-129):
`score = (len(text_results) - i) / len(text_results) * text_weight`,
realised as an indexed traversal (`enumerate`). -/
def scoreTextStage (n : Nat) (tw : ℚ) : Nat → List SProduct → List ScoreEntry
  | _, [] => []
  | i, p :: t =>
    let score := ((n : ℚ) - (i : ℚ)) / (n : ℚ) * tw
    ⟨p.id, score, 0, score⟩ :: scoreTextStage n tw (i + 1) t

/-- The vector-stage merge of one `(product, similarity)` result
(lines 140-154): update the existing dict entry in place, or append a new
vector-only entry. -/
def addVectorResult (acc : List ScoreEntry) (pid : Nat) (vs : ℚ) : List ScoreEntry :=
  if acc.any (fun e => e.pid == pid) then
    acc.map (fun e =>
      if e.pid == pid then { e with vectorScore := vs, totalScore := e.totalScore + vs }
      else e)
  else acc ++ [⟨pid, 0, vs, vs⟩]

/-- The default fusion weights of `hybrid_search`. -/
def defaultTextWeight : ℚ := 6 / 10

/-- The default fusion weights of `hybrid_search`. -/
def defaultVectorWeight : ℚ := 4 / 10

/-- `ProductRepository.hybrid_search` (product.py, lines 96-163): text stage
over `limit * 2` candidates, optional vector stage (`if embedding:` is Python
truthiness, so an empty vector is skipped) scoring `similarity * vector_weight`,
then a stable descending sort on `total_score` truncated to `limit`. -/
def hybridSearch (rank : String → Option String → Option ℚ)
    (cosDist : List ℚ → List ℚ → ℚ) (db : List SProduct) (q : String)
    (emb : Option (List ℚ)) (storeId categoryId : Option Nat)
    (tw vw : ℚ) (limit : Nat) : List ScoreEntry :=
  let tr := searchByText rank db q storeId categoryId (limit * 2)
  let base := scoreTextStage tr.length tw 0 tr
  let merged :=
    match emb with
    | some e =>
      if e = [] then base
      else
        (searchByEmbedding cosDist db e storeId categoryId
            defaultSimilarityThreshold (limit * 2)).foldl
          (fun acc pr => addVectorResult acc pr.1.id (pr.2 * vw)) base
    | none => base
  (sortDescBy (fun e => e.totalScore) merged).take limit

/-- `ProductRepository.get_similar_products` (product.py, lines 266-284):
look the base product up by id; without a (truthy) embedding return `[]`;
otherwise run `search_by_embedding` with the product's own embedding, its
own store, the default threshold and `limit + 1`, and drop the first
result. -/
def getSimilarProducts (cosDist : List ℚ → List ℚ → ℚ) (db : List SProduct)
    (productId : Nat) (limit : Nat) : List (SProduct × ℚ) :=
  match db.find? (fun p => p.id == productId) with
  | none => []
  | some p =>
    match p.embedding with
    | none => []
    | some e =>
      if e = [] then []
      else
        (searchByEmbedding cosDist db e (some p.storeId) none
            defaultSimilarityThreshold (limit + 1)).drop 1

/-- Follows the spec's words, for comparison with `getSimilarProducts`:
"uses a stored product's own embedding as the query embedding, scoped to the
same store, excluding the product itself, with a similarity floor
(default 0.7) below which results are omitted entirely". -/
def getSimilarProductsSpec (cosDist : List ℚ → List ℚ → ℚ) (db : List SProduct)
    (productId : Nat) (limit : Nat) : List (SProduct × ℚ) :=
  match db.find? (fun p => p.id == productId) with
  | none => []
  | some p =>
    match p.embedding with
    | none => []
    | some e =>
      let cands := db.filter (fun p2 =>
        !(p2.id == productId) && p2.storeId == p.storeId && p2.embedding.isSome
          && decide ((7 : ℚ) / 10 ≤ 1 - cosDist e (p2.embedding.getD [])))
      ((sortDescBy (fun p2 => 1 - cosDist e (p2.embedding.getD [])) cands).take limit).map
        (fun p2 => (p2, 1 - cosDist e (p2.embedding.getD [])))

/-- The outcome dictionary of `ProductService.search_products`, with the
product list abstracted to the ids of the returned rows. -/
structure SearchOutcome where
  searchType : String
  productIds : List Nat
  totalResults : Nat
deriving DecidableEq, Repr

/-- `ProductService.search_products` (product_service.py, lines 25-91).
`aiAvailable` models `embedding_gen.is_available()` and `queryEmbedding` the
result of `generate_embedding(query)` (the external client); `None` and the
empty vector are falsy. -/
def searchProducts (rank : String → Option String → Option ℚ)
    (cosDist : List ℚ → List ℚ → ℚ) (db : List SProduct) (q : String)
    (storeId categoryId : Option Nat) (useAi aiAvailable : Bool)
    (queryEmbedding : Option (List ℚ)) (limit : Nat) : SearchOutcome :=
  let tr := searchByText rank db q storeId categoryId limit
  if !useAi || !aiAvailable then
    ⟨"text_only", tr.map (·.id), tr.length⟩
  else
    match queryEmbedding with
    | some e =>
      if e = [] then ⟨"text_fallback", tr.map (·.id), tr.length⟩
      else
        let hr := hybridSearch rank cosDist db q (some e) storeId categoryId
          defaultTextWeight defaultVectorWeight limit
        ⟨"hybrid", hr.map (·.pid), hr.length⟩
    | none => ⟨"text_fallback", tr.map (·.id), tr.length⟩

/-! ## Concrete scenarios

Fixed inputs used to evaluate the embedded code at specific points.
-/

/-- A stored product priced 1.29 whose price was last updated at time 100. -/
def c1Stored : StoredProduct :=
  { name := "Vollmilch"
    priceAmount := some (129 / 100)
    priceCurrency := "EUR"
    description := none
    scrapedAt := 100
    scrapeCount := 1
    lastPriceUpdate := some 100 }

/-- A re-scrape of the same product with the identical price 1.29. -/
def c1Adapter : AdapterItem :=
  { name := some "Vollmilch"
    priceAmount := some (129 / 100)
    priceCurrency := none
    description := none
    scrapedAt := some 200
    scrapeCount := none }

/-- Two category paths whose leaves share the name "Sonstiges" under
different parents, reconciled one after the other from an empty table. -/
def c2Run : CatState × Option CategoryRow :=
  let st0 : CatState := ⟨⟨[], 1⟩, []⟩
  let r1 := getOrCreateCategoryHierarchy st0 ["Obst", "Sonstiges"]
  getOrCreateCategoryHierarchy r1.1 ["Getränke", "Sonstiges"]

/-- Re-reconciling the first path once more, after both runs of `c2Run`. -/
def c2Rerun : CatState × Option CategoryRow :=
  getOrCreateCategoryHierarchy c2Run.1 ["Obst", "Sonstiges"]

/-- A full-text collaborator that matches nothing. -/
def rankNone : String → Option String → Option ℚ := fun _ _ => none

/-- A one-product table whose product has a stored embedding. -/
def c3db : List SProduct :=
  [{ id := 1, storeId := 1, categoryId := none, searchText := some "Vollmilch",
     embedding := some [1] }]

/-- A cosine-distance collaborator placing the stored embedding at
distance 0.1 (similarity 0.9) from the query vector. -/
def c3cosDistA : List ℚ → List ℚ → ℚ := fun _ _ => 1 / 10

/-- A cosine-distance collaborator placing the stored embedding at
distance 0.05 (similarity 0.95) from the query vector. -/
def c3cosDistB : List ℚ → List ℚ → ℚ := fun _ _ => 1 / 20

/-- Base product (id 1) and one same-store candidate (id 2).  The embeddings
are the integer vectors (20, 21) and (0, 1), whose true cosine similarity is
21/29 ≈ 0.724 — above 0.7, below 0.8. -/
def c4db : List SProduct :=
  [{ id := 1, storeId := 5, categoryId := none, searchText := none,
     embedding := some [20, 21] },
   { id := 2, storeId := 5, categoryId := none, searchText := none,
     embedding := some [0, 1] }]

/-- The cosine distances of the two embeddings of `c4db` (exact values of
pgvector's `cosine_distance` on those vectors). -/
def c4cosDist (a b : List ℚ) : ℚ :=
  if a = b then 0
  else if (a = [20, 21] && b = [0, 1]) || (a = [0, 1] && b = [20, 21]) then 8 / 29
  else 1

/-- A same-store candidate (id 2) listed before the base product (id 1),
both with the identical embedding (20, 21) — a cosine-distance tie at 0. -/
def c4dbTie : List SProduct :=
  [{ id := 2, storeId := 5, categoryId := none, searchText := none,
     embedding := some [20, 21] },
   { id := 1, storeId := 5, categoryId := none, searchText := none,
     embedding := some [20, 21] }]

/-- Base product (id 1) and one same-store candidate (id 2) whose embeddings
(20, 21) and (21, 20) have cosine similarity 840/841 ≈ 0.999. -/
def c4dbW : List SProduct :=
  [{ id := 1, storeId := 5, categoryId := none, searchText := none,
     embedding := some [20, 21] },
   { id := 2, storeId := 5, categoryId := none, searchText := none,
     embedding := some [21, 20] }]

/-- The cosine distances of the two embeddings of `c4dbW`. -/
def c4cosDistW (a b : List ℚ) : ℚ :=
  if a = b then 0
  else if (a = [20, 21] && b = [21, 20]) || (a = [21, 20] && b = [20, 21]) then 1 / 841
  else 1

/-! ## Lemmas: the shape of matched groups -/

theorem takeWhile_digits_append (ds : List Char) (x : Char) (r : List Char)
    (h : ∀ c ∈ ds, c.isDigit = true) (hx : x.isDigit = false) :
    (ds ++ x :: r).takeWhile Char.isDigit = ds := by
  rw [List.takeWhile_append_of_pos h, List.takeWhile_cons_of_neg (by simp [hx])]
  simp

theorem dropWhile_digits_append (ds : List Char) (x : Char) (r : List Char)
    (h : ∀ c ∈ ds, c.isDigit = true) (hx : x.isDigit = false) :
    (ds ++ x :: r).dropWhile Char.isDigit = x :: r := by
  rw [List.dropWhile_append_of_pos h, List.dropWhile_cons_of_neg (by simp [hx])]

theorem parsePriceNum_eq_some {l g t : List Char} (h : parsePriceNum l = some (g, t)) :
    ∃ ds sep c1 c2, l = ds ++ sep :: c1 :: c2 :: t ∧ g = ds ++ [sep, c1, c2] ∧
      ds ≠ [] ∧ (∀ c ∈ ds, c.isDigit = true) ∧ (sep = ',' ∨ sep = '.') ∧
      c1.isDigit = true ∧ c2.isDigit = true := by
  simp only [parsePriceNum] at h
  split at h
  · exact absurd h (by simp)
  · rename_i he
    split at h
    · rename_i sep c1 c2 t2 heq
      split at h
      · rename_i hcond
        simp only [Option.some.injEq, Prod.mk.injEq] at h
        obtain ⟨hg, ht⟩ := h
        refine ⟨l.takeWhile Char.isDigit, sep, c1, c2, ?_, ?_, ?_, ?_, ?_, ?_, ?_⟩
        · rw [← ht]
          conv_lhs => rw [← List.takeWhile_append_dropWhile (p := Char.isDigit) (l := l)]
          rw [heq]
        · rw [← hg]
        · simpa [List.isEmpty_iff] using he
        · exact fun c hc => List.mem_takeWhile_imp hc
        · simp only [Bool.and_eq_true, Bool.or_eq_true, decide_eq_true_eq] at hcond
          exact hcond.1.1
        · simp only [Bool.and_eq_true, Bool.or_eq_true, decide_eq_true_eq] at hcond
          exact hcond.1.2
        · simp only [Bool.and_eq_true, Bool.or_eq_true, decide_eq_true_eq] at hcond
          exact hcond.2
      · exact absurd h (by simp)
    · exact absurd h (by simp)

theorem parseQuantNum_eq_some {l g t : List Char} (h : parseQuantNum l = some (g, t)) :
    (g ≠ [] ∧ ∀ c ∈ g, c.isDigit = true) ∨
    (∃ ds sep fs, g = ds ++ sep :: fs ∧ ds ≠ [] ∧ (∀ c ∈ ds, c.isDigit = true) ∧
      (sep = '.' ∨ sep = ',') ∧ fs ≠ [] ∧ (∀ c ∈ fs, c.isDigit = true)) := by
  simp only [parseQuantNum] at h
  split at h
  · exact absurd h (by simp)
  · rename_i he
    have hne : l.takeWhile Char.isDigit ≠ [] := by simpa [List.isEmpty_iff] using he
    have hmem : ∀ c ∈ l.takeWhile Char.isDigit, c.isDigit = true :=
      fun c hc => List.mem_takeWhile_imp hc
    split at h
    · rename_i sep d t2 heq
      split at h
      · rename_i hcond
        simp only [Bool.and_eq_true, Bool.or_eq_true, decide_eq_true_eq] at hcond
        simp only [Option.some.injEq, Prod.mk.injEq] at h
        obtain ⟨hg, _⟩ := h
        refine Or.inr ⟨l.takeWhile Char.isDigit, sep, (d :: t2).takeWhile Char.isDigit,
          hg.symm, hne, hmem, hcond.1, ?_, fun c hc => List.mem_takeWhile_imp hc⟩
        rw [List.takeWhile_cons_of_pos (by simp [hcond.2])]
        simp
      · simp only [Option.some.injEq, Prod.mk.injEq] at h
        exact Or.inl ⟨h.1 ▸ hne, h.1 ▸ hmem⟩
    · simp only [Option.some.injEq, Prod.mk.injEq] at h
      exact Or.inl ⟨h.1 ▸ hne, h.1 ▸ hmem⟩

theorem matchBaseAt_eq_some {l g1 g2 g3 : List Char}
    (h : matchBaseAt l = some (g1, g2, g3)) :
    (∃ ds sep c1 c2, g1 = ds ++ [sep, c1, c2] ∧ ds ≠ [] ∧
      (∀ c ∈ ds, c.isDigit = true) ∧ (sep = ',' ∨ sep = '.') ∧
      c1.isDigit = true ∧ c2.isDigit = true) ∧
    ((g2 ≠ [] ∧ ∀ c ∈ g2, c.isDigit = true) ∨
     (∃ ds sep fs, g2 = ds ++ sep :: fs ∧ ds ≠ [] ∧ (∀ c ∈ ds, c.isDigit = true) ∧
       (sep = '.' ∨ sep = ',') ∧ fs ≠ [] ∧ (∀ c ∈ fs, c.isDigit = true))) := by
  unfold matchBaseAt at h
  rcases hp : parsePriceNum (dropEuroWs (dropParen l)) with _ | ⟨ga, ra⟩ <;>
    rw [hp] at h <;> dsimp only [] at h
  · exact absurd h (by simp)
  · rcases hq : parseQuantNum (afterPriceSkip ra) with _ | ⟨gb, rb⟩ <;>
      rw [hq] at h <;> dsimp only [] at h
    · exact absurd h (by simp)
    · by_cases hal : (List.takeWhile Char.isAlpha (List.dropWhile isWs rb)).isEmpty = true
      · simp [hal] at h
      · rw [if_neg hal] at h
        injection h with h
        injection h with e1 h
        injection h with e2 e3
        subst e1
        subst e2
        obtain ⟨ds, sep, c1, c2, _, hgshape, hrest⟩ := parsePriceNum_eq_some hp
        exact ⟨⟨ds, sep, c1, c2, hgshape, hrest⟩, parseQuantNum_eq_some hq⟩

theorem searchBase_eq_some {l g1 g2 g3 : List Char}
    (h : searchBase l = some (g1, g2, g3)) :
    (∃ ds sep c1 c2, g1 = ds ++ [sep, c1, c2] ∧ ds ≠ [] ∧
      (∀ c ∈ ds, c.isDigit = true) ∧ (sep = ',' ∨ sep = '.') ∧
      c1.isDigit = true ∧ c2.isDigit = true) ∧
    ((g2 ≠ [] ∧ ∀ c ∈ g2, c.isDigit = true) ∨
     (∃ ds sep fs, g2 = ds ++ sep :: fs ∧ ds ≠ [] ∧ (∀ c ∈ ds, c.isDigit = true) ∧
       (sep = '.' ∨ sep = ',') ∧ fs ≠ [] ∧ (∀ c ∈ fs, c.isDigit = true))) := by
  induction l with
  | nil => exact absurd h (by simp [searchBase])
  | cons c t ih =>
    rw [searchBase] at h
    split at h
    · rename_i hm
      cases h
      exact matchBaseAt_eq_some hm
    · exact ih h

/-! ## Lemmas: Decimal construction on matched groups -/

theorem commaToDot_digits {l : List Char} (h : ∀ c ∈ l, c.isDigit = true) :
    commaToDot l = l := by
  induction l with
  | nil => rfl
  | cons c t ih =>
    have hc : ¬c = ',' := by
      intro e
      subst e
      simpa using h ',' (by simp)
    simp only [commaToDot, List.map_cons, if_neg hc]
    have ht := ih (fun x hx => h x (List.mem_cons_of_mem _ hx))
    simp only [commaToDot] at ht
    rw [ht]

theorem parseDecimal_digits {ds : List Char} (h1 : ds ≠ [])
    (h2 : ∀ c ∈ ds, c.isDigit = true) :
    parseDecimal ds = some ((digitsToNat ds : ℚ)) := by
  have ht : ds.takeWhile Char.isDigit = ds := List.takeWhile_eq_self_iff.mpr h2
  have hd : ds.dropWhile Char.isDigit = [] := List.dropWhile_eq_nil_iff.mpr h2
  simp only [parseDecimal, ht, hd]
  rw [if_neg (by simpa [List.isEmpty_iff] using h1)]

theorem parseDecimal_fraction {ds fs : List Char} {sep : Char}
    (hds : ds ≠ []) (h2 : ∀ c ∈ ds, c.isDigit = true)
    (hsep : sep = ',' ∨ sep = '.') (hfs : ∀ c ∈ fs, c.isDigit = true) :
    parseDecimal (commaToDot (ds ++ sep :: fs)) =
      some ((digitsToNat ds : ℚ) + (digitsToNat fs : ℚ) / (10 : ℚ) ^ fs.length) := by
  have hdot : (if sep = ',' then '.' else sep) = '.' := by
    rcases hsep with h | h <;> simp [h]
  have hstep : commaToDot (ds ++ sep :: fs) = ds ++ '.' :: fs := by
    simp only [commaToDot, List.map_append, List.map_cons]
    rw [hdot]
    have e1 := commaToDot_digits h2
    have e2 := commaToDot_digits hfs
    simp only [commaToDot] at e1 e2
    rw [e1, e2]
  rw [hstep]
  have hx : ('.' : Char).isDigit = false := by decide
  have ht := takeWhile_digits_append ds '.' fs h2 hx
  have hd := dropWhile_digits_append ds '.' fs h2 hx
  simp only [parseDecimal, ht, hd]
  have hca : (fs.all Char.isDigit && !(ds.isEmpty && fs.isEmpty)) = true := by
    have hb1 : fs.all Char.isDigit = true := List.all_eq_true.mpr hfs
    have hb2 : ds.isEmpty = false := by
      cases ds with
      | nil => exact absurd rfl hds
      | cons a b => rfl
    rw [hb1, hb2]
    rfl
  rw [if_pos hca]

/-! ## C5 -/

/-- C5: `parse_base_price` returns the amount/quantity/unit triple
atomically: for every input string either all three fields are `None` or all
three are set.  (When the regex matches, the captured sub-groups always have
digit shapes on which `Decimal` construction succeeds, so a partially filled
result is never produced.) -/
theorem c5_parseBasePrice_atomic (s : String) :
    parseBasePrice s = ⟨none, none, none⟩ ∨
    ∃ a u q, parseBasePrice s = ⟨some a, some u, some q⟩ := by
  unfold parseBasePrice
  by_cases hs : s = ""
  · rw [if_pos hs]
    exact Or.inl rfl
  · rw [if_neg hs]
    rcases hsb : searchBase s.data with _ | ⟨g1, g2, g3⟩
    · exact Or.inl rfl
    · obtain ⟨⟨ds, sep, c1, c2, hg1, hds, hdall, hsep, hc1, hc2⟩, hq⟩ :=
        searchBase_eq_some hsb
      have hfs2 : ∀ c ∈ [c1, c2], c.isDigit = true := by
        intro c hc
        rcases List.mem_cons.mp hc with rfl | hc2'
        · exact hc1
        · rcases List.mem_cons.mp hc2' with rfl | hc3
          · exact hc2
          · simp at hc3
      have ha : parseDecimal (commaToDot g1) =
          some ((digitsToNat ds : ℚ) + (digitsToNat [c1, c2] : ℚ) / (10 : ℚ) ^ 2) := by
        rw [hg1]
        exact parseDecimal_fraction hds hdall hsep hfs2
      have hqd : ∃ qv, parseDecimal (commaToDot g2) = some qv := by
        rcases hq with ⟨hne, hall⟩ | ⟨ds2, sep2, fs2, hg2, hds2, hall2, hsep2, _, hfs2'⟩
        · refine ⟨(digitsToNat g2 : ℚ), ?_⟩
          rw [commaToDot_digits hall]
          exact parseDecimal_digits hne hall
        · refine ⟨(digitsToNat ds2 : ℚ) + (digitsToNat fs2 : ℚ) / (10 : ℚ) ^ fs2.length, ?_⟩
          rw [hg2]
          exact parseDecimal_fraction hds2 hall2 hsep2.symm hfs2'
      obtain ⟨qv, hqv⟩ := hqd
      dsimp only []
      rw [ha]
      dsimp only []
      rw [hqv]
      exact Or.inr ⟨_, _, _, rfl⟩

/-! ## Lemmas: when the main-price pattern can match -/

theorem dropEuroWs_suffix (l : List Char) : dropEuroWs l <:+ l := by
  unfold dropEuroWs
  split
  · rename_i t
    exact (List.dropWhile_suffix _).trans (List.suffix_cons _ _)
  · exact List.suffix_refl _

theorem dropEuroWs_cons_of_ne {c : Char} (t : List Char) (h : ¬c = '€') :
    dropEuroWs (c :: t) = c :: t := by
  unfold dropEuroWs
  split
  · rename_i t2 heq
    injection heq with e1 _
    exact absurd e1 h
  · rfl

theorem hasPriceShape_suffix {l1 l2 : List Char} (h : l1 <:+ l2)
    (hp : hasPriceShape l1 = true) : hasPriceShape l2 = true := by
  induction l2 with
  | nil =>
    rw [List.suffix_nil.mp h] at hp
    simp [hasPriceShape] at hp
  | cons c t ih =>
    rcases List.suffix_cons_iff.mp h with rfl | h2
    · exact hp
    · rw [hasPriceShape, ih h2]
      simp

theorem hasPriceShape_of_run {ds : List Char} {sep c1 c2 : Char} (t : List Char)
    (hds : ds ≠ []) (hall : ∀ c ∈ ds, c.isDigit = true)
    (hsep : sep = ',' ∨ sep = '.') (hc1 : c1.isDigit = true) (hc2 : c2.isDigit = true) :
    hasPriceShape (ds ++ sep :: c1 :: c2 :: t) = true := by
  induction ds with
  | nil => exact absurd rfl hds
  | cons d ds2 ih =>
    cases ds2 with
    | nil =>
      have hd : d.isDigit = true := hall d (by simp)
      rw [List.cons_append, List.nil_append, hasPriceShape]
      have h4 : fourShape (d :: sep :: c1 :: c2 :: t) = true := by
        rw [fourShape]
        rcases hsep with h | h <;> simp [h, hd, hc1, hc2]
      rw [h4]
      simp
    | cons d2 t2 =>
      have hrest : hasPriceShape ((d2 :: t2) ++ sep :: c1 :: c2 :: t) = true :=
        ih (by simp) (fun c hc => hall c (List.mem_cons_of_mem _ hc))
      rw [List.cons_append, hasPriceShape, hrest]
      simp

theorem matchMainAt_shape {l g : List Char} (h : matchMainAt l = some g) :
    hasPriceShape l = true := by
  unfold matchMainAt at h
  rcases hp : parsePriceNum (dropEuroWs l) with _ | ⟨ga, ra⟩ <;> rw [hp] at h
  · simp at h
  · obtain ⟨ds, sep, c1, c2, heq, _, hds, hall, hsep, hc1, hc2⟩ :=
      parsePriceNum_eq_some hp
    have h1 : hasPriceShape (dropEuroWs l) = true := by
      rw [heq]
      exact hasPriceShape_of_run ra hds hall hsep hc1 hc2
    exact hasPriceShape_suffix (dropEuroWs_suffix l) h1

theorem searchMain_eq_none {l : List Char} (h : hasPriceShape l = false) :
    searchMain l = none := by
  induction l with
  | nil => rfl
  | cons c t ih =>
    have htail : hasPriceShape t = false := by
      rw [hasPriceShape] at h
      exact (Bool.or_eq_false_iff.mp h).2
    rw [searchMain]
    rcases hm : matchMainAt (c :: t) with _ | g
    · exact ih htail
    · exact absurd (matchMainAt_shape hm) (by rw [h]; simp)

/-! ## C8 -/

/-- C8: for every well-formed `"<amount>,<cents> €"` string (a digit run, a
comma, two cent digits, a space and the euro sign) `parse_main_price`
returns the exact decimal value `amount + cents/100`; and for every string
in which no digit run is followed by a decimal separator and two digits (so
the price pattern matches nowhere), it returns `none` instead of raising. -/
theorem c8_parseMainPrice_spec :
    (∀ (ds : List Char) (c1 c2 : Char), ds ≠ [] → (∀ c ∈ ds, c.isDigit = true) →
       c1.isDigit = true → c2.isDigit = true →
       parseMainPrice (String.mk (ds ++ ',' :: c1 :: c2 :: ' ' :: '€' :: [])) =
         some ((digitsToNat ds : ℚ) + (digitsToNat [c1, c2] : ℚ) / 100)) ∧
    (∀ s : String, hasPriceShape s.data = false → parseMainPrice s = none) := by
  constructor
  · intro ds c1 c2 hds hall hc1 hc2
    have hne : String.mk (ds ++ ',' :: c1 :: c2 :: ' ' :: '€' :: []) ≠ "" := by
      intro e
      have he : ds ++ ',' :: c1 :: c2 :: ' ' :: '€' :: [] = [] := congrArg String.data e
      simp at he
    unfold parseMainPrice
    rw [if_neg hne]
    have hcm : ¬(',' : Char).isDigit = true := by decide
    have hpp : parsePriceNum (ds ++ ',' :: c1 :: c2 :: ' ' :: '€' :: []) =
        some (ds ++ [',', c1, c2], ' ' :: '€' :: []) := by
      have ht := takeWhile_digits_append ds ',' (c1 :: c2 :: ' ' :: '€' :: []) hall (by decide)
      have hd := dropWhile_digits_append ds ',' (c1 :: c2 :: ' ' :: '€' :: []) hall (by decide)
      simp only [parsePriceNum, ht, hd]
      rw [if_neg (by
        cases ds with
        | nil => exact absurd rfl hds
        | cons a b => simp)]
      simp [hc1, hc2]
    have hsm : searchMain (ds ++ ',' :: c1 :: c2 :: ' ' :: '€' :: []) =
        some (ds ++ [',', c1, c2]) := by
      cases ds with
      | nil => exact absurd rfl hds
      | cons d ds2 =>
        have hdE : ¬d = '€' := by
          intro e
          have hdig := hall d (by simp)
          rw [e] at hdig
          exact absurd hdig (by decide)
        have hm : matchMainAt (d :: (ds2 ++ ',' :: c1 :: c2 :: ' ' :: '€' :: [])) =
            some ((d :: ds2) ++ [',', c1, c2]) := by
          unfold matchMainAt
          rw [dropEuroWs_cons_of_ne _ hdE, ← List.cons_append, hpp]
          rfl
        rw [List.cons_append, searchMain, hm]
    change (match searchMain (ds ++ ',' :: c1 :: c2 :: ' ' :: '€' :: []) with
        | some g => parseDecimal (commaToDot g)
        | none => none) = _
    rw [hsm]
    dsimp only []
    have hfr := @parseDecimal_fraction ds [c1, c2] ',' hds hall (Or.inl rfl)
      (by
        intro c hc
        rcases List.mem_cons.mp hc with rfl | hc2'
        · exact hc1
        · rcases List.mem_cons.mp hc2' with rfl | hc3
          · exact hc2
          · simp at hc3)
    rw [hfr]
    norm_num
  · intro s h
    unfold parseMainPrice
    by_cases hs : s = ""
    · rw [if_pos hs]
    · rw [if_neg hs, searchMain_eq_none h]

/-- Witness for C8: the two halves applied at `"2,99 €"` and `"abc"`. -/
theorem c8_parseMainPrice_spec_witness :
    parseMainPrice (String.mk ['2', ',', '9', '9', ' ', '€']) =
      some ((digitsToNat ['2'] : ℚ) + (digitsToNat ['9', '9'] : ℚ) / 100) ∧
    parseMainPrice "abc" = none :=
  ⟨c8_parseMainPrice_spec.1 ['2'] '9' '9' (by decide) (by decide) (by decide) (by decide),
   c8_parseMainPrice_spec.2 "abc" (by decide)⟩

/-! ## C7 -/

/-- C7: `detect_availability` is total: every string is mapped to exactly one
of the three statuses; the empty string yields `unknown` with no normalized
text; and the positive phrase list is checked first, so any input whose
lowered text contains a positive phrase yields `in_stock` even if a negative
phrase also matches. -/
theorem c7_detectAvailability_total (s : String) :
    ((detectAvailability s).1 = "in_stock" ∨ (detectAvailability s).1 = "out_of_stock" ∨
      (detectAvailability s).1 = "unknown") ∧
    detectAvailability "" = ("unknown", none) ∧
    (inStockPhrases.any (fun p => containsL p.data (lowerL s.data)) = true →
      (detectAvailability s).1 = "in_stock") := by
  refine ⟨?_, by decide, ?_⟩
  · unfold detectAvailability
    split
    · simp
    · dsimp only []
      split
      · simp
      · split
        · simp
        · simp
  · intro hpos
    by_cases hs : s = ""
    · rw [hs] at hpos
      exact absurd hpos (by decide)
    · unfold detectAvailability
      rw [if_neg hs]
      dsimp only []
      rw [if_pos hpos]

/-- Witness for C7 at `"nicht verfügbar"`, a string containing phrases from
both lists. -/
theorem c7_detectAvailability_total_witness :
    (detectAvailability "nicht verfügbar").1 = "in_stock" ∧
    outOfStockPhrases.any
      (fun p => containsL p.data (lowerL "nicht verfügbar".data)) = true :=
  ⟨(c7_detectAvailability_total "nicht verfügbar").2.2 (by decide), by decide⟩

/-! ## C9 -/

/-- C9: unit normalization is idempotent on its own outputs: every unit in
the range of the `'unit_normalize'` table is mapped to itself by the
lowercase-strip-lookup step of `parse_base_price`. -/
theorem c9_unit_normalization_idempotent (u : String)
    (hu : u ∈ unitNormalizeTable.map Prod.snd) : normalizeUnit u = u := by
  fin_cases hu <;> decide

/-- Witness for C9 at `"L"`, the one table output with an upper-case
letter. -/
theorem c9_unit_normalization_idempotent_witness :
    "L" ∈ unitNormalizeTable.map Prod.snd ∧ normalizeUnit "L" = "L" :=
  ⟨by decide, c9_unit_normalization_idempotent "L" (by decide)⟩

/-! ## C10 -/

/-- C10: the validation stage requires a non-empty `scraped_at` as a fourth
mandatory field: a record whose `name`, `product_url` and `store_name` are
all present and non-blank is still dropped (with the `scraped_at` rule
reported) whenever `scraped_at` is missing, `None` or whitespace-only, and
passes the required-fields check when all four are non-blank. -/
theorem c10_validation_requires_scrapedAt (r : RawRecord)
    (h1 : fieldBlank r.name = false) (h2 : fieldBlank r.productUrl = false)
    (h3 : fieldBlank r.storeName = false) :
    (fieldBlank r.scrapedAt = true → validateRequiredFields r = some "scraped_at") ∧
    (fieldBlank r.scrapedAt = false → validateRequiredFields r = none) := by
  constructor <;> intro h4 <;> simp [validateRequiredFields, h1, h2, h3, h4]

/-- Witness for C10: a record with the three spec-listed fields present but
no `scraped_at` is dropped by the `scraped_at` rule. -/
theorem c10_validation_requires_scrapedAt_witness :
    validateRequiredFields
      ⟨some "Vollmilch", some "http://example.org/p/1", some "EDEKA24", none⟩ =
      some "scraped_at" :=
  (c10_validation_requires_scrapedAt
    ⟨some "Vollmilch", some "http://example.org/p/1", some "EDEKA24", none⟩
    (by decide) (by decide) (by decide)).1 (by decide)

/-! ## C1 -/

/-- C1: evaluation of the upsert at a re-scrape whose price equals the
stored price (1.29, non-null).  The claim says `last_price_update` changes
iff the new price is non-null and differs, so here it should stay at its old
value 100; but `_prepare_product_data` puts `last_price_update = now` into
the update dictionary whenever a price is present, so the stored timestamp
is refreshed to 200 even though `price_changed` is `false`. -/
theorem c1_lastPriceUpdate_refreshed_on_equal_price :
    c1Adapter.priceAmount = c1Stored.priceAmount ∧
    c1Stored.lastPriceUpdate = some 100 ∧
    (processExistingProduct c1Stored c1Adapter 200 201).2 = false ∧
    (processExistingProduct c1Stored c1Adapter 200 201).1.lastPriceUpdate = some 200 := by
  refine ⟨rfl, rfl, ?_, ?_⟩ <;>
    simp [processExistingProduct, updateExistingProduct, prepareProductData, applyUpdate,
      c1Stored, c1Adapter]

/-! ## C2 -/

/-- C2: evaluation of category resolution on two paths whose leaves share
the name "Sonstiges" under different parents.  The claim says two distinct
`(name, parent)` entities are created and kept; but the table's second
constraint `UniqueConstraint('slug')` is global, so the second create raises
`IntegrityError`, the pipeline's `except` returns `None`, only one
"Sonstiges" row exists, and the already-committed parent "Getränke" is left
behind.  Re-reconciling the first path again returns the existing leaf
without creating rows (that half of the claim holds). -/
theorem c2_global_slug_constraint_blocks_second_branch :
    c2Run.2 = none ∧
    (c2Run.1.db.rows.filter (fun r => r.name = "Sonstiges")).length = 1 ∧
    c2Run.1.db.rows.any (fun r => r.name = "Getränke") = true ∧
    c2Rerun.2 = some ⟨2, "Sonstiges", "sonstiges", some 1, 1, "Obst/Sonstiges"⟩ ∧
    c2Rerun.1.db.rows.length = c2Run.1.db.rows.length := by
  decide

/-! ## Lemmas: the stable sorts -/

theorem insertAscBy_perm {α : Type} (k : α → ℚ) (x : α) (l : List α) :
    (insertAscBy k x l).Perm (x :: l) := by
  induction l with
  | nil => exact List.Perm.refl _
  | cons y t ih =>
    rw [insertAscBy]
    split
    · exact List.Perm.refl _
    · exact (ih.cons y).trans (List.Perm.swap x y t)

theorem sortAscBy_perm {α : Type} (k : α → ℚ) (l : List α) :
    (sortAscBy k l).Perm l := by
  induction l with
  | nil => exact List.Perm.refl _
  | cons x t ih => exact (insertAscBy_perm k x (sortAscBy k t)).trans (ih.cons x)

theorem insertAscBy_pairwise {α : Type} (k : α → ℚ) (x : α) {l : List α}
    (h : List.Pairwise (fun a b => k a ≤ k b) l) :
    List.Pairwise (fun a b => k a ≤ k b) (insertAscBy k x l) := by
  induction l with
  | nil => simp [insertAscBy]
  | cons y t ih =>
    rcases List.pairwise_cons.mp h with ⟨hy, ht⟩
    rw [insertAscBy]
    split
    · rename_i hxy
      refine List.pairwise_cons.mpr ⟨?_, h⟩
      intro z hz
      rcases List.mem_cons.mp hz with rfl | hz2
      · exact hxy
      · exact le_trans hxy (hy z hz2)
    · rename_i hxy
      refine List.pairwise_cons.mpr ⟨?_, ih ht⟩
      intro z hz
      rcases List.mem_cons.mp ((insertAscBy_perm k x t).mem_iff.mp hz) with rfl | hz3
      · exact le_of_not_le hxy
      · exact hy z hz3

theorem sortAscBy_pairwise {α : Type} (k : α → ℚ) (l : List α) :
    List.Pairwise (fun a b => k a ≤ k b) (sortAscBy k l) := by
  induction l with
  | nil => simp [sortAscBy]
  | cons x t ih => exact insertAscBy_pairwise k x ih

theorem insertDescBy_perm {α : Type} (k : α → ℚ) (x : α) (l : List α) :
    (insertDescBy k x l).Perm (x :: l) := by
  induction l with
  | nil => exact List.Perm.refl _
  | cons y t ih =>
    rw [insertDescBy]
    split
    · exact List.Perm.refl _
    · exact (ih.cons y).trans (List.Perm.swap x y t)

theorem sortDescBy_perm {α : Type} (k : α → ℚ) (l : List α) :
    (sortDescBy k l).Perm l := by
  induction l with
  | nil => exact List.Perm.refl _
  | cons x t ih => exact (insertDescBy_perm k x (sortDescBy k t)).trans (ih.cons x)

theorem insertDescBy_pairwise {α : Type} (k : α → ℚ) (x : α) {l : List α}
    (h : List.Pairwise (fun a b => k b ≤ k a) l) :
    List.Pairwise (fun a b => k b ≤ k a) (insertDescBy k x l) := by
  induction l with
  | nil => simp [insertDescBy]
  | cons y t ih =>
    rcases List.pairwise_cons.mp h with ⟨hy, ht⟩
    rw [insertDescBy]
    split
    · rename_i hyx
      refine List.pairwise_cons.mpr ⟨?_, h⟩
      intro z hz
      rcases List.mem_cons.mp hz with rfl | hz2
      · exact hyx
      · exact le_trans (hy z hz2) hyx
    · rename_i hyx
      refine List.pairwise_cons.mpr ⟨?_, ih ht⟩
      intro z hz
      rcases List.mem_cons.mp ((insertDescBy_perm k x t).mem_iff.mp hz) with rfl | hz3
      · exact le_of_not_le hyx
      · exact hy z hz3

theorem sortDescBy_pairwise {α : Type} (k : α → ℚ) (l : List α) :
    List.Pairwise (fun a b => k b ≤ k a) (sortDescBy k l) := by
  induction l with
  | nil => simp [sortDescBy]
  | cons x t ih => exact insertDescBy_pairwise k x ih

/-! ## C6 -/

/-- C6: whenever no query embedding can be used (AI toggled off, embedding
client unavailable, or embedding generation returned `None` or an empty
vector), `search_products` returns exactly the lexical-only path's output
(`search_by_text` with the same arguments and limit) and reports a
lexical-only `search_type` (`text_only` or `text_fallback`), never
`hybrid`. -/
theorem c6_search_degrades_to_lexical
    (rank : String → Option String → Option ℚ) (cosDist : List ℚ → List ℚ → ℚ)
    (db : List SProduct) (q : String) (sid cid : Option Nat)
    (useAi aiAvailable : Bool) (qe : Option (List ℚ)) (lim : Nat)
    (h : useAi = false ∨ aiAvailable = false ∨ qe = none ∨ qe = some []) :
    (searchProducts rank cosDist db q sid cid useAi aiAvailable qe lim).productIds =
      (searchByText rank db q sid cid lim).map (·.id) ∧
    (searchProducts rank cosDist db q sid cid useAi aiAvailable qe lim).searchType ≠
      "hybrid" ∧
    ((searchProducts rank cosDist db q sid cid useAi aiAvailable qe lim).searchType =
        "text_only" ∨
      (searchProducts rank cosDist db q sid cid useAi aiAvailable qe lim).searchType =
        "text_fallback") := by
  by_cases hb : (!useAi || !aiAvailable) = true
  · simp [searchProducts, hb]
  · have hA : useAi = true := by
      cases useAi
      · simp at hb
      · rfl
    have hV : aiAvailable = true := by
      cases aiAvailable
      · simp at hb
      · rfl
    rcases h with h | h | h | h
    · rw [h] at hA
      exact absurd hA (by simp)
    · rw [h] at hV
      exact absurd hV (by simp)
    · subst h
      simp [searchProducts, hA, hV]
    · subst h
      simp [searchProducts, hA, hV]

/-- Witness for C6: a disabled embedding client with a concrete table. -/
theorem c6_search_degrades_to_lexical_witness :
    (searchProducts rankNone c3cosDistA c3db "Milch" none none true false
        (some [1]) 20).productIds =
      (searchByText rankNone c3db "Milch" none none 20).map (·.id) ∧
    (searchProducts rankNone c3cosDistA c3db "Milch" none none true false
        (some [1]) 20).searchType ≠ "hybrid" ∧
    ((searchProducts rankNone c3cosDistA c3db "Milch" none none true false
        (some [1]) 20).searchType = "text_only" ∨
      (searchProducts rankNone c3cosDistA c3db "Milch" none none true false
        (some [1]) 20).searchType = "text_fallback") :=
  c6_search_degrades_to_lexical rankNone c3cosDistA c3db "Milch" none none true false
    (some [1]) 20 (Or.inr (Or.inl rfl))

/-! ## C4 -/

theorem searchByEmbedding_mem {cosD : List ℚ → List ℚ → ℚ} {db : List SProduct}
    {emb : List ℚ} {sid cid : Option Nat} {thr : ℚ} {lim : Nat} {pr : SProduct × ℚ}
    (h : pr ∈ searchByEmbedding cosD db emb sid cid thr lim) :
    pr.1 ∈ db ∧ pr.1.embedding.isSome = true ∧
    cosD emb (pr.1.embedding.getD []) < 1 - thr ∧
    storeMatches sid pr.1 = true ∧ categoryMatches cid pr.1 = true ∧
    pr.2 = 1 - cosD emb (pr.1.embedding.getD []) := by
  simp only [searchByEmbedding] at h
  obtain ⟨p2, hp2, rfl⟩ := List.mem_map.mp h
  have hsorted : p2 ∈ sortAscBy (fun x => cosD emb (x.embedding.getD [])) (db.filter _) :=
    List.take_subset _ _ hp2
  have hcands := (sortAscBy_perm _ _).mem_iff.mp hsorted
  obtain ⟨hdb, hcond⟩ := List.mem_filter.mp hcands
  simp only [Bool.and_eq_true, decide_eq_true_eq] at hcond
  exact ⟨hdb, hcond.1.1.1, hcond.1.1.2, hcond.1.2, hcond.2, rfl⟩

/-- C4 as the claim states it is false on the code, at two concrete inputs.
Floor: the similarity floor along the similar-products path is the
`search_by_embedding` default 0.8 (strict), not 0.7 — in `c4db` the
candidate (id 2, same store, similarity 21/29 ≈ 0.724 to the base product's
own embedding) is above 0.7, so the spec-worded query returns it, but the
code returns the empty list.  Self-exclusion: the code only drops the first
element of the distance-ordered list, so in `c4dbTie`, where another
same-store candidate carries the identical embedding and precedes the base
product in table order, querying product 1 returns product 1 itself (and
drops the candidate) instead of excluding it. -/
theorem c4_similarity_floor_counterexample :
    (getSimilarProducts c4cosDist c4db 1 10 = [] ∧
      getSimilarProductsSpec c4cosDist c4db 1 10 =
        [(⟨2, 5, none, none, some [0, 1]⟩, 1 - c4cosDist [20, 21] [0, 1])] ∧
      (7 : ℚ) / 10 ≤ 1 - c4cosDist [20, 21] [0, 1]) ∧
    (getSimilarProducts c4cosDist c4dbTie 1 10).map (fun pr => pr.1.id) = [1] := by
  refine ⟨⟨?_, ?_, by norm_num [c4cosDist]⟩, ?_⟩
  · norm_num [getSimilarProducts, searchByEmbedding, c4db, c4cosDist,
      defaultSimilarityThreshold, List.filter_cons, storeMatches, categoryMatches,
      sortAscBy, insertAscBy, List.find?]
  · norm_num [getSimilarProductsSpec, c4db, c4cosDist, List.filter_cons,
      sortDescBy, insertDescBy, List.find?]
  · have hf : List.find? (fun p => p.id == 1) c4dbTie =
        some ⟨1, 5, none, none, some [20, 21]⟩ := rfl
    norm_num [getSimilarProducts, searchByEmbedding, c4dbTie, c4cosDist,
      defaultSimilarityThreshold, List.filter_cons, storeMatches, categoryMatches,
      sortAscBy, insertAscBy, hf, List.cons_ne_nil]

/-- C4 amended: the similar-products query uses the stored product's own
embedding as the query vector and the same-store filter, and every returned
candidate carries its similarity `1 - cosine distance`, which is strictly
above the default floor 0.8 (candidates at or below 0.8 are omitted); the
product itself is excluded as the dropped first result, provided every other
candidate is at strictly positive distance from the base embedding. -/
theorem c4_similar_products_amended
    (cosD : List ℚ → List ℚ → ℚ) (db : List SProduct) (pid lim : Nat)
    (p : SProduct) (e : List ℚ)
    (hfind : db.find? (fun x => x.id == pid) = some p)
    (hemb : p.embedding = some e) (hne : e ≠ [])
    (hnodup : (db.map (·.id)).Nodup)
    (hself : cosD e e = 0)
    (hpos : ∀ x ∈ db, x.id ≠ p.id → 0 < cosD e (x.embedding.getD [])) :
    ∀ pr ∈ getSimilarProducts cosD db pid lim,
      pr.1.id ≠ pid ∧ (p.storeId = 0 ∨ pr.1.storeId = p.storeId) ∧
      pr.1.embedding.isSome = true ∧
      pr.2 = 1 - cosD e (pr.1.embedding.getD []) ∧
      (8 : ℚ) / 10 < pr.2 := by
  intro pr hpr
  have hpid : p.id = pid := by simpa using List.find?_some hfind
  have hpdb : p ∈ db := List.mem_of_find?_eq_some hfind
  have hpr0 : pr ∈ searchByEmbedding cosD db e (some p.storeId) none
      defaultSimilarityThreshold (lim + 1) := by
    have h0 := hpr
    unfold getSimilarProducts at h0
    rw [hfind] at h0
    dsimp only [] at h0
    rw [hemb] at h0
    dsimp only [] at h0
    rw [if_neg hne] at h0
    exact List.drop_subset _ _ h0
  obtain ⟨hdb2, hsome2, hdist2, hstore2, _, hsim2⟩ := searchByEmbedding_mem hpr0
  refine ⟨?_, ?_, hsome2, hsim2, ?_⟩
  · -- the dropped head of the ordered result is the base product itself
    have h0 := hpr
    unfold getSimilarProducts at h0
    rw [hfind] at h0
    dsimp only [] at h0
    rw [hemb] at h0
    dsimp only [] at h0
    rw [if_neg hne] at h0
    simp only [searchByEmbedding] at h0
    rw [← List.map_drop] at h0
    obtain ⟨p2, hp2drop, hpr_eq⟩ := List.mem_map.mp h0
    set key : SProduct → ℚ := fun x => cosD e (x.embedding.getD []) with hkeydef
    set cands := db.filter (fun x =>
      x.embedding.isSome && decide (cosD e (x.embedding.getD []) <
        1 - defaultSimilarityThreshold)
        && storeMatches (some p.storeId) x && categoryMatches none x) with hcandsdef
    have hkey_p : key p = 0 := by
      simp only [hkeydef, hemb]
      simpa using hself
    have hp_cands : p ∈ cands := by
      rw [hcandsdef]
      refine List.mem_filter.mpr ⟨hpdb, ?_⟩
      have h1 : p.embedding.isSome = true := by rw [hemb]; rfl
      have h2 : cosD e (p.embedding.getD []) < 1 - defaultSimilarityThreshold := by
        rw [hemb]
        simp only [Option.getD_some]
        rw [hself]
        norm_num [defaultSimilarityThreshold]
      have h3 : storeMatches (some p.storeId) p = true := by
        simp [storeMatches]
      simp [h1, h2, h3, categoryMatches]
    have hp_sorted : p ∈ sortAscBy key cands := (sortAscBy_perm key cands).mem_iff.mpr
      hp_cands
    obtain ⟨q0, rest, hsorted_eq⟩ : ∃ q0 rest, sortAscBy key cands = q0 :: rest := by
      cases hs : sortAscBy key cands with
      | nil =>
        rw [hs] at hp_sorted
        exact absurd hp_sorted (by simp)
      | cons a b => exact ⟨a, b, rfl⟩
    have hq0 : q0 = p := by
      by_contra hne0
      have hq0_sorted : q0 ∈ sortAscBy key cands := by
        rw [hsorted_eq]
        simp
      have hq0_cands : q0 ∈ cands := (sortAscBy_perm key cands).mem_iff.mp hq0_sorted
      have hq0_db : q0 ∈ db := (List.mem_filter.mp (hcandsdef ▸ hq0_cands)).1
      have hq0_id : q0.id ≠ p.id := by
        intro hid
        exact hne0 (List.inj_on_of_nodup_map hnodup hq0_db hpdb hid)
      have h1 : 0 < key q0 := hpos q0 hq0_db hq0_id
      have hp_mem2 : p ∈ q0 :: rest := hsorted_eq ▸ hp_sorted
      rcases List.mem_cons.mp hp_mem2 with h | hp_rest
      · exact hne0 h.symm
      · have hpw : List.Pairwise (fun a b => key a ≤ key b) (q0 :: rest) :=
          hsorted_eq ▸ sortAscBy_pairwise key cands
        have h2 : key q0 ≤ key p := List.rel_of_pairwise_cons hpw hp_rest
        rw [hkey_p] at h2
        linarith
    have hids : ((q0 :: rest).map (·.id)).Nodup := by
      have h1 : ((cands.map (·.id))).Nodup := by
        rw [hcandsdef]
        exact List.Nodup.sublist (List.Sublist.map _ (List.filter_sublist db)) hnodup
      have h2 := ((sortAscBy_perm key cands).map (·.id)).nodup_iff.mpr h1
      rwa [hsorted_eq] at h2
    have hp2_rest : p2 ∈ rest := by
      rw [hsorted_eq, List.take_succ_cons] at hp2drop
      exact List.take_subset _ _ (by simpa using hp2drop)
    have hid_ne : p2.id ≠ q0.id := by
      intro hid
      have hcons : ((q0 :: rest).map (·.id)) = q0.id :: rest.map (·.id) := by simp
      rw [hcons] at hids
      rcases List.nodup_cons.mp hids with ⟨hnotin, _⟩
      exact hnotin (hid ▸ List.mem_map_of_mem (·.id) hp2_rest)
    have hpr1 : pr.1 = p2 := by rw [← hpr_eq]
    rw [hpr1, ← hpid, ← hq0]
    exact hid_ne
  · simpa [storeMatches] using hstore2
  · rw [hsim2]
    have : cosD e (pr.1.embedding.getD []) < 1 - defaultSimilarityThreshold := hdist2
    norm_num [defaultSimilarityThreshold] at this ⊢
    linarith

/-- Witness for C4 amended, at the returned candidate of a table where that
candidate (similarity 840/841) survives the 0.8 floor. -/
theorem c4_similar_products_amended_witness :
    ((⟨2, 5, none, none, some [21, 20]⟩ : SProduct), (840 / 841 : ℚ)).1.id ≠ 1 ∧
    ((⟨1, 5, none, none, some [20, 21]⟩ : SProduct).storeId = 0 ∨
      ((⟨2, 5, none, none, some [21, 20]⟩ : SProduct), (840 / 841 : ℚ)).1.storeId =
        (⟨1, 5, none, none, some [20, 21]⟩ : SProduct).storeId) ∧
    ((⟨2, 5, none, none, some [21, 20]⟩ : SProduct),
      (840 / 841 : ℚ)).1.embedding.isSome = true ∧
    ((⟨2, 5, none, none, some [21, 20]⟩ : SProduct), (840 / 841 : ℚ)).2 =
      1 - c4cosDistW [20, 21]
        (((⟨2, 5, none, none, some [21, 20]⟩ : SProduct),
          (840 / 841 : ℚ)).1.embedding.getD []) ∧
    (8 : ℚ) / 10 <
      ((⟨2, 5, none, none, some [21, 20]⟩ : SProduct), (840 / 841 : ℚ)).2 := by
  have hmem : ((⟨2, 5, none, none, some [21, 20]⟩ : SProduct), (840 / 841 : ℚ)) ∈
      getSimilarProducts c4cosDistW c4dbW 1 10 := by
    have he : getSimilarProducts c4cosDistW c4dbW 1 10 =
        [(⟨2, 5, none, none, some [21, 20]⟩, 840 / 841)] := by
      norm_num [getSimilarProducts, searchByEmbedding, c4dbW, c4cosDistW,
        defaultSimilarityThreshold, List.filter_cons, storeMatches, categoryMatches,
        sortAscBy, insertAscBy, List.find?, List.cons_ne_nil]
    rw [he]
    exact List.mem_singleton.mpr rfl
  exact c4_similar_products_amended c4cosDistW c4dbW 1 10
    ⟨1, 5, none, none, some [20, 21]⟩ [20, 21]
    (by decide) rfl (by simp) (by decide)
    (by norm_num [c4cosDistW])
    (by
      intro x hx hid
      fin_cases hx
      · simp at hid
      · norm_num [c4cosDistW])
    ((⟨2, 5, none, none, some [21, 20]⟩ : SProduct), (840 / 841 : ℚ)) hmem

/-! ## C3 -/

theorem scoreTextStage_mem {n : Nat} {tw : ℚ} :
    ∀ {i : Nat} {l : List SProduct} {en : ScoreEntry}, en ∈ scoreTextStage n tw i l →
    ∃ j p, l.get? j = some p ∧ en.pid = p.id ∧
      en.textScore = ((n : ℚ) - ((i + j : Nat) : ℚ)) / (n : ℚ) * tw ∧
      en.vectorScore = 0 ∧ en.totalScore = en.textScore := by
  intro i l
  induction l generalizing i with
  | nil =>
    intro en h
    simp [scoreTextStage] at h
  | cons p t ih =>
    intro en h
    rw [scoreTextStage] at h
    rcases List.mem_cons.mp h with rfl | h2
    · exact ⟨0, p, rfl, rfl, by simp, rfl, rfl⟩
    · obtain ⟨j, p2, hget, hpid, hts, hvs, htot⟩ := ih h2
      refine ⟨j + 1, p2, by simpa using hget, hpid, ?_, hvs, htot⟩
      rw [hts]
      have he : i + 1 + j = i + (j + 1) := by omega
      rw [he]

theorem scoreTextStage_pids (n : Nat) (tw : ℚ) :
    ∀ (i : Nat) (l : List SProduct),
      (scoreTextStage n tw i l).map (·.pid) = l.map (·.id) := by
  intro i l
  induction l generalizing i with
  | nil => rfl
  | cons p t ih => simp [scoreTextStage, ih]

theorem addVectorResult_mem {acc : List ScoreEntry} {pid : Nat} {vs : ℚ}
    {en : ScoreEntry} (h : en ∈ addVectorResult acc pid vs) :
    (en ∈ acc ∧ en.pid ≠ pid) ∨
    (∃ en0 ∈ acc, en0.pid = pid ∧
      en = { en0 with vectorScore := vs, totalScore := en0.totalScore + vs }) ∨
    (en = ⟨pid, 0, vs, vs⟩ ∧ ∀ e0 ∈ acc, e0.pid ≠ pid) := by
  unfold addVectorResult at h
  split at h
  · obtain ⟨en0, hmem0, heq⟩ := List.mem_map.mp h
    by_cases hp : en0.pid == pid
    · right
      left
      exact ⟨en0, hmem0, by simpa using hp, by rw [← heq]; simp [hp]⟩
    · left
      have hen : en = en0 := by rw [← heq]; simp [hp]
      rw [hen]
      exact ⟨hmem0, by simpa using hp⟩
  · rename_i hany
    rcases List.mem_append.mp h with h2 | h2
    · left
      refine ⟨h2, fun he => hany ?_⟩
      exact List.any_eq_true.mpr ⟨en, h2, by simp [he]⟩
    · right
      right
      refine ⟨by simpa using h2, fun e0 he0 hpe => hany ?_⟩
      exact List.any_eq_true.mpr ⟨e0, he0, by simp [hpe]⟩

theorem addVectorResult_pid_of_mem {acc : List ScoreEntry} {pid : Nat} {vs : ℚ}
    {en : ScoreEntry} (h : en ∈ addVectorResult acc pid vs) :
    en.pid ∈ acc.map (·.pid) ∨ en.pid = pid := by
  rcases addVectorResult_mem h with ⟨h2, _⟩ | ⟨en0, h0, _, he⟩ | ⟨he, _⟩
  · exact Or.inl (List.mem_map_of_mem _ h2)
  · rw [he]
    refine Or.inl ?_
    show en0.pid ∈ acc.map (·.pid)
    exact List.mem_map_of_mem _ h0
  · rw [he]
    exact Or.inr rfl

theorem foldl_addVector_props (vw : ℚ) :
    ∀ (vr : List (SProduct × ℚ)) (acc : List ScoreEntry),
      (vr.map (fun pr => pr.1.id)).Nodup →
      (∀ pr ∈ vr, ∀ en ∈ acc, en.pid = pr.1.id → en.vectorScore = 0) →
      (∀ en ∈ acc, en.totalScore = en.textScore + en.vectorScore) →
      ∀ en ∈ vr.foldl (fun a pr => addVectorResult a pr.1.id (pr.2 * vw)) acc,
        en.totalScore = en.textScore + en.vectorScore ∧
        ((∃ pr ∈ vr, pr.1.id = en.pid ∧ en.vectorScore = pr.2 * vw) ∨
          (∃ en0 ∈ acc, en0.pid = en.pid ∧ en.vectorScore = en0.vectorScore)) ∧
        ((∃ en0 ∈ acc, en0.pid = en.pid ∧ en.textScore = en0.textScore) ∨
          en.textScore = 0) := by
  intro vr
  induction vr with
  | nil =>
    intro acc _ _ htot en hen
    exact ⟨htot en hen, Or.inr ⟨en, hen, rfl, rfl⟩, Or.inl ⟨en, hen, rfl, rfl⟩⟩
  | cons pr0 vr2 ih =>
    intro acc hnd huntouched htot en hen
    have hnd2 : (vr2.map (fun pr => pr.1.id)).Nodup := (List.nodup_cons.mp hnd).2
    have hhead : pr0.1.id ∉ vr2.map (fun pr => pr.1.id) := (List.nodup_cons.mp hnd).1
    have hacc2_untouched : ∀ pr ∈ vr2,
        ∀ e2 ∈ addVectorResult acc pr0.1.id (pr0.2 * vw),
          e2.pid = pr.1.id → e2.vectorScore = 0 := by
      intro pr hpr e2 he2 hpid
      have hne0 : pr.1.id ≠ pr0.1.id := by
        intro he
        exact hhead (he ▸ List.mem_map_of_mem _ hpr)
      rcases addVectorResult_mem he2 with ⟨h2, _⟩ | ⟨en0, _, hp0, he⟩ | ⟨he, _⟩
      · exact huntouched pr (List.mem_cons_of_mem _ hpr) e2 h2 hpid
      · rw [he] at hpid
        exact absurd (hp0 ▸ hpid) hne0.symm
      · rw [he] at hpid
        exact absurd hpid hne0.symm
    have hacc2_tot : ∀ e2 ∈ addVectorResult acc pr0.1.id (pr0.2 * vw),
        e2.totalScore = e2.textScore + e2.vectorScore := by
      intro e2 he2
      rcases addVectorResult_mem he2 with ⟨h2, _⟩ | ⟨en0, h0, hp0, he⟩ | ⟨he, _⟩
      · exact htot e2 h2
      · have hv0 : en0.vectorScore = 0 :=
          huntouched pr0 (List.mem_cons_self _ _) en0 h0 hp0
        rw [he]
        simp only []
        rw [htot en0 h0, hv0]
        ring
      · rw [he]
        simp
    have := ih (addVectorResult acc pr0.1.id (pr0.2 * vw)) hnd2 hacc2_untouched
      hacc2_tot en hen
    obtain ⟨h1, h2, h3⟩ := this
    refine ⟨h1, ?_, ?_⟩
    · rcases h2 with ⟨pr, hpr, hid, hv⟩ | ⟨e2, he2, hp2, hv2⟩
      · exact Or.inl ⟨pr, List.mem_cons_of_mem _ hpr, hid, hv⟩
      · rcases addVectorResult_mem he2 with ⟨ha, _⟩ | ⟨en0, h0, hp0, he⟩ | ⟨he, _⟩
        · exact Or.inr ⟨e2, ha, hp2, hv2⟩
        · refine Or.inl ⟨pr0, List.mem_cons_self _ _, ?_, ?_⟩
          · rw [← hp2, he]
            exact hp0.symm
          · rw [hv2, he]
        · refine Or.inl ⟨pr0, List.mem_cons_self _ _, ?_, ?_⟩
          · rw [← hp2, he]
          · rw [hv2, he]
    · rcases h3 with ⟨e2, he2, hp2, ht2⟩ | ht0
      · rcases addVectorResult_mem he2 with ⟨ha, _⟩ | ⟨en0, h0, hp0, he⟩ | ⟨he, _⟩
        · exact Or.inl ⟨e2, ha, hp2, ht2⟩
        · refine Or.inl ⟨en0, h0, ?_, ?_⟩
          · rw [← hp2, he]
          · rw [ht2, he]
        · rw [he] at ht2
          exact Or.inr ht2
      · exact Or.inr ht0

theorem searchByText_ids_nodup (rank : String → Option String → Option ℚ)
    (db : List SProduct) (q : String) (sid cid : Option Nat) (lim : Nat)
    (h : (db.map (·.id)).Nodup) :
    ((searchByText rank db q sid cid lim).map (·.id)).Nodup := by
  simp only [searchByText]
  refine List.Nodup.sublist
    (List.Sublist.map (fun p : SProduct => p.id) (List.take_sublist _ _)) ?_
  exact ((sortDescBy_perm _ _).map (fun p : SProduct => p.id)).nodup_iff.mpr
    (List.Nodup.sublist
      (List.Sublist.map (fun p : SProduct => p.id) (List.filter_sublist db)) h)

theorem searchByEmbedding_ids_nodup (cosD : List ℚ → List ℚ → ℚ)
    (db : List SProduct) (emb : List ℚ) (sid cid : Option Nat) (thr : ℚ) (lim : Nat)
    (h : (db.map (·.id)).Nodup) :
    ((searchByEmbedding cosD db emb sid cid thr lim).map (fun pr => pr.1.id)).Nodup := by
  simp only [searchByEmbedding]
  rw [List.map_map]
  refine List.Nodup.sublist
    (List.Sublist.map (fun p : SProduct => p.id) (List.take_sublist _ _)) ?_
  exact ((sortAscBy_perm _ _).map (fun p : SProduct => p.id)).nodup_iff.mpr
    (List.Nodup.sublist
      (List.Sublist.map (fun p : SProduct => p.id) (List.filter_sublist db)) h)

/-- C3 amended: in hybrid search with both a query and a non-empty embedding,
the lexical contribution of a product ranked `j`-th of `n` text candidates is
the position-based `(n - j)/n * text_weight`, but the vector contribution is
the candidate's cosine similarity itself times `vector_weight` (not a
position-based score); per product id the two contributions are summed, a
product appearing in only one stage gets 0 from the other, the result is
sorted descending by `total_score`, and at most `limit` entries are
returned. -/
theorem c3_hybrid_fusion_amended
    (rank : String → Option String → Option ℚ) (cosD : List ℚ → List ℚ → ℚ)
    (db : List SProduct) (q : String) (e : List ℚ) (sid cid : Option Nat)
    (tw vw : ℚ) (lim : Nat)
    (hdb : (db.map (·.id)).Nodup) (he : e ≠ []) :
    (hybridSearch rank cosD db q (some e) sid cid tw vw lim).length ≤ lim ∧
    List.Pairwise (fun a b => b.totalScore ≤ a.totalScore)
      (hybridSearch rank cosD db q (some e) sid cid tw vw lim) ∧
    ∀ en ∈ hybridSearch rank cosD db q (some e) sid cid tw vw lim,
      en.totalScore = en.textScore + en.vectorScore ∧
      ((∃ j p2, (searchByText rank db q sid cid (lim * 2)).get? j = some p2 ∧
          en.pid = p2.id ∧
          en.textScore =
            (((searchByText rank db q sid cid (lim * 2)).length : ℚ) - (j : ℚ)) /
              ((searchByText rank db q sid cid (lim * 2)).length : ℚ) * tw) ∨
        en.textScore = 0) ∧
      ((∃ pr ∈ searchByEmbedding cosD db e sid cid defaultSimilarityThreshold (lim * 2),
          pr.1.id = en.pid ∧ en.vectorScore = pr.2 * vw) ∨ en.vectorScore = 0) := by
  set trL := searchByText rank db q sid cid (lim * 2) with htrdef
  set vrL := searchByEmbedding cosD db e sid cid defaultSimilarityThreshold (lim * 2)
    with hvrdef
  set baseL := scoreTextStage trL.length tw 0 trL with hbasedef
  have huf : hybridSearch rank cosD db q (some e) sid cid tw vw lim =
      (sortDescBy (fun en => en.totalScore)
        (vrL.foldl (fun acc pr => addVectorResult acc pr.1.id (pr.2 * vw)) baseL)).take
        lim := by
    simp only [hybridSearch]
    rw [if_neg he]
  refine ⟨?_, ?_, ?_⟩
  · rw [huf]
    exact List.length_take_le _ _
  · rw [huf]
    exact List.Pairwise.sublist (List.take_sublist _ _) (sortDescBy_pairwise _ _)
  · intro en hen
    rw [huf] at hen
    have hmerged : en ∈ vrL.foldl (fun acc pr => addVectorResult acc pr.1.id (pr.2 * vw))
        baseL :=
      (sortDescBy_perm _ _).mem_iff.mp (List.take_subset _ _ hen)
    have hbase_tot : ∀ e0 ∈ baseL, e0.totalScore = e0.textScore + e0.vectorScore := by
      intro e0 h0
      obtain ⟨j, p2, _, _, _, hvs, htot⟩ := scoreTextStage_mem h0
      rw [htot, hvs]
      ring
    have hbase_untouched : ∀ pr ∈ vrL, ∀ e0 ∈ baseL, e0.pid = pr.1.id →
        e0.vectorScore = 0 := by
      intro pr _ e0 h0 _
      obtain ⟨j, p2, _, _, _, hvs, _⟩ := scoreTextStage_mem h0
      exact hvs
    have hvr_nodup : (vrL.map (fun pr => pr.1.id)).Nodup :=
      searchByEmbedding_ids_nodup cosD db e sid cid defaultSimilarityThreshold (lim * 2)
        hdb
    obtain ⟨h1, h2, h3⟩ :=
      foldl_addVector_props vw vrL baseL hvr_nodup hbase_untouched hbase_tot en hmerged
    refine ⟨h1, ?_, ?_⟩
    · rcases h3 with ⟨e0, h0, hpid, hts⟩ | h0
      · obtain ⟨j, p2, hget, hpid0, hts0, _, _⟩ := scoreTextStage_mem h0
        refine Or.inl ⟨j, p2, hget, by rw [← hpid, hpid0], ?_⟩
        rw [hts, hts0]
        norm_num
      · exact Or.inr h0
    · rcases h2 with ⟨pr, hpr, hid, hv⟩ | ⟨e0, h0, hpid, hv⟩
      · exact Or.inl ⟨pr, hpr, hid, hv⟩
      · obtain ⟨j, p2, _, _, _, hvs, _⟩ := scoreTextStage_mem h0
        exact Or.inr (by rw [hv, hvs])

/-- C3 as the claim states it is false on the code: the vector stage's
contribution is not a position-based score scaled by the weight.  On the
one-product table `c3db` with no text match, the sole vector candidate sits
at position 0 of 1 in both runs, so a position-based contribution would be
the same fixed `0.4 * f 0 1` under both cosine-distance collaborators; but
the code scores `similarity * 0.4`, giving 9/25 at similarity 0.9 and 19/50
at similarity 0.95. -/
theorem c3_vector_stage_not_position_based :
    ¬∃ f : ℕ → ℕ → ℚ, ∀ cosD : List ℚ → List ℚ → ℚ,
      (hybridSearch rankNone cosD c3db "Milch" (some [1]) none none (6 / 10) (4 / 10)
          10).map (fun en => en.vectorScore) = [4 / 10 * f 0 1] := by
  rintro ⟨f, hf⟩
  have e1 : (hybridSearch rankNone c3cosDistA c3db "Milch" (some [1]) none none (6 / 10)
      (4 / 10) 10).map (fun en => en.vectorScore) = [9 / 25] := by
    norm_num [hybridSearch, searchByText, searchByEmbedding, c3db, c3cosDistA, rankNone,
      defaultSimilarityThreshold, List.filter_cons, storeMatches, categoryMatches,
      sortAscBy, insertAscBy, sortDescBy, insertDescBy, scoreTextStage, addVectorResult]
  have e2 : (hybridSearch rankNone c3cosDistB c3db "Milch" (some [1]) none none (6 / 10)
      (4 / 10) 10).map (fun en => en.vectorScore) = [19 / 50] := by
    norm_num [hybridSearch, searchByText, searchByEmbedding, c3db, c3cosDistB, rankNone,
      defaultSimilarityThreshold, List.filter_cons, storeMatches, categoryMatches,
      sortAscBy, insertAscBy, sortDescBy, insertDescBy, scoreTextStage, addVectorResult]
  have h1 := hf c3cosDistA
  have h2 := hf c3cosDistB
  rw [e1] at h1
  rw [e2] at h2
  have h3 : (9 : ℚ) / 25 = 19 / 50 := by
    have h4 : (9 : ℚ) / 25 = 4 / 10 * f 0 1 := by simpa using h1
    have h5 : (19 : ℚ) / 50 = 4 / 10 * f 0 1 := by simpa using h2
    rw [h4, h5]
  norm_num at h3

/-- Witness for C3 amended, at the single returned entry of the one-product
table with the similarity-0.9 collaborator. -/
theorem c3_hybrid_fusion_amended_witness :
    (hybridSearch rankNone c3cosDistA c3db "Milch" (some [1]) none none (6 / 10)
      (4 / 10) 10).length ≤ 10 ∧
    ((⟨1, 0, 9 / 25, 9 / 25⟩ : ScoreEntry).totalScore =
      (⟨1, 0, 9 / 25, 9 / 25⟩ : ScoreEntry).textScore +
        (⟨1, 0, 9 / 25, 9 / 25⟩ : ScoreEntry).vectorScore) ∧
    ((∃ j p2, (searchByText rankNone c3db "Milch" none none (10 * 2)).get? j = some p2 ∧
        (⟨1, 0, 9 / 25, 9 / 25⟩ : ScoreEntry).pid = p2.id ∧
        (⟨1, 0, 9 / 25, 9 / 25⟩ : ScoreEntry).textScore =
          (((searchByText rankNone c3db "Milch" none none (10 * 2)).length : ℚ) -
            (j : ℚ)) /
            ((searchByText rankNone c3db "Milch" none none (10 * 2)).length : ℚ) *
            (6 / 10)) ∨
      (⟨1, 0, 9 / 25, 9 / 25⟩ : ScoreEntry).textScore = 0) ∧
    ((∃ pr ∈ searchByEmbedding c3cosDistA c3db [1] none none
          defaultSimilarityThreshold (10 * 2),
        pr.1.id = (⟨1, 0, 9 / 25, 9 / 25⟩ : ScoreEntry).pid ∧
        (⟨1, 0, 9 / 25, 9 / 25⟩ : ScoreEntry).vectorScore = pr.2 * (4 / 10)) ∨
      (⟨1, 0, 9 / 25, 9 / 25⟩ : ScoreEntry).vectorScore = 0) := by
  have happ := c3_hybrid_fusion_amended rankNone c3cosDistA c3db "Milch" [1] none none
    (6 / 10) (4 / 10) 10 (by decide) (by decide)
  have hmem : (⟨1, 0, 9 / 25, 9 / 25⟩ : ScoreEntry) ∈
      hybridSearch rankNone c3cosDistA c3db "Milch" (some [1]) none none (6 / 10)
        (4 / 10) 10 := by
    have he : hybridSearch rankNone c3cosDistA c3db "Milch" (some [1]) none none (6 / 10)
        (4 / 10) 10 = [⟨1, 0, 9 / 25, 9 / 25⟩] := by
      norm_num [hybridSearch, searchByText, searchByEmbedding, c3db, c3cosDistA, rankNone,
        defaultSimilarityThreshold, List.filter_cons, storeMatches, categoryMatches,
        sortAscBy, insertAscBy, sortDescBy, insertDescBy, scoreTextStage, addVectorResult]
    rw [he]
    exact List.mem_singleton.mpr rfl
  exact ⟨happ.1, happ.2.2 ⟨1, 0, 9 / 25, 9 / 25⟩ hmem⟩

end Scraper
